import Mathlib

/-!
Verification of the joxide JSON parser (src/parser.rs).

The token stream is modelled as a list of typed, positioned tokens; the
parser functions are translated from the Rust source.  Machine recursion
is rendered with an explicit fuel parameter; the top-level entry point
supplies fuel strictly larger than any recursion depth the stream can
force, and all theorems about error or success results hold for the
entry point as defined.  The numeric payload of a token is carried
opaquely (the parser never computes with it), rendered here as Int.
-/

/-- Token types, from the lexer interface used by src/parser.rs. -/
inductive TokenType where
  | Null
  | Bool (b : Bool)
  | Number (n : Int)
  | String (s : String)
  | Colon
  | Comma
  | OpenCurly
  | CloseCurly
  | OpenSquare
  | CloseSquare
  deriving DecidableEq

/-- A token: a type tag plus a source position (line and column).
The parser reads only the type tag and, in check_trailing_comma, the
column. -/
structure Token where
  token_type : TokenType
  line : Nat
  col : Nat
  deriving DecidableEq

/-- The document value, from the Json enum in src/parser.rs.  The Rust
Object holds a HashMap; here it is an association list in insertion
order, with uniqueness of keys enforced by the object builder exactly
where the Rust code checks the result of insert. -/
inductive Json where
  | Null
  | Bool (b : Bool)
  | Number (n : Int)
  | String (s : String)
  | Object (entries : List (Prod String Json))
  | Array (elems : List Json)

/-- Error kinds, from ParseErrorType in src/parser.rs. -/
inductive ParseErrorType where
  | UnexpectedEnd
  | UnexpectedToken
  | DuplicateKey
  | TrailingComma
  | KeyNotInQuotes
  | MissingColon
  deriving DecidableEq

/-- A parse error: kind, optional offending token, optional expected
token type, from ParseError in src/parser.rs. -/
structure ParseError where
  error_type : ParseErrorType
  token : Option Token
  expected : Option TokenType
  deriving DecidableEq

/-- Transient parse context: key (meaningful only for key/value pairs),
parsed value, and index of the first unconsumed token. -/
structure ParseContext where
  key : String
  value : Json
  next : Nat

def ParseContext.new (value : Json) (next : Nat) : ParseContext :=
  { key := "", value := value, next := next }

def ParseContext.key_value_pair (key : String) (value : Json) (next : Nat) : ParseContext :=
  { key := key, value := value, next := next }

/-- expect, from src/parser.rs lines 66-82. -/
def expect (token_type : TokenType) (error_type : ParseErrorType)
    (tokens : List Token) (i : Nat) : Except ParseError Token :=
  match tokens[i]? with
  | some token =>
      if token.token_type = token_type then
        .ok token
      else
        .error (ParseError.mk error_type (some token) (some token_type))
  | none => .error (ParseError.mk .UnexpectedEnd none none)

/-- check_trailing_comma, from src/parser.rs lines 84-102.  Note the
column-based test: the last comma token is flagged when its source
column equals the final token index plus one. -/
def check_trailing_comma (last_comma : Option Token) (i : Nat) :
    Except ParseError Nat :=
  match last_comma with
  | some token =>
      if token.col = i + 1 then
        .error (ParseError.mk .TrailingComma (some token) none)
      else
        .ok i
  | none => .ok i

/-- for_each_comma, from src/parser.rs lines 104-149.  The Rust closure
state mutated by the builder is threaded explicitly as acc; the loop is
rendered with fuel.  As in the source: a getter failure of kind
UnexpectedToken ends the list normally, any other getter failure
propagates, a builder failure propagates, and a missing comma after an
element ends the list before the trailing-comma check. -/
def for_each_comma {σ : Type}
    (getter : List Token → Nat → Except ParseError ParseContext)
    (builder : σ → ParseContext → Option Token → Except ParseError σ)
    (tokens : List Token) :
    Nat → Nat → Option Token → σ → Except ParseError (σ × Nat)
  | 0, _, _, _ => .error (ParseError.mk .UnexpectedEnd none none)
  | fuel + 1, i, last_comma, acc =>
    match getter tokens i with
    | .ok parse_context =>
      match builder acc parse_context tokens[i]? with
      | .error parse_error => .error parse_error
      | .ok acc2 =>
        match expect .Comma .UnexpectedToken tokens parse_context.next with
        | .ok token =>
            for_each_comma getter builder tokens fuel
              (parse_context.next + 1) (some token) acc2
        | .error _ =>
          match check_trailing_comma last_comma parse_context.next with
          | .ok j => .ok (acc2, j)
          | .error e => .error e
    | .error parse_error =>
      match parse_error.error_type with
      | .UnexpectedToken =>
        match check_trailing_comma last_comma i with
        | .ok j => .ok (acc, j)
        | .error e => .error e
      | _ => .error parse_error

/-- expect_key, from src/parser.rs lines 151-163. -/
def expect_key (tokens : List Token) (i : Nat) : Except ParseError String :=
  match tokens[i]? with
  | some token =>
    match token.token_type with
    | .String s => .ok s
    | _ => .error (ParseError.mk .KeyNotInQuotes (some token) none)
  | none => .error (ParseError.mk .UnexpectedEnd none none)

/-- The object accumulator closure from src/parser.rs lines 192-197: a
colliding key yields DuplicateKey carrying the token at the element
start; otherwise the pair is recorded.  (The Rust HashMap insert briefly
overwrites before the error aborts the parse; since the map is local and
discarded on error, checking before inserting is observationally the
same.) -/
def object_builder (acc : List (Prod String Json)) (parse_context : ParseContext)
    (token : Option Token) : Except ParseError (List (Prod String Json)) :=
  if acc.any (fun p => p.1 = parse_context.key) then
    .error (ParseError.mk .DuplicateKey token none)
  else
    .ok (acc ++ [(parse_context.key, parse_context.value)])

/-- The array accumulator closure from src/parser.rs line 219: always
appends. -/
def array_builder (acc : List Json) (parse_context : ParseContext)
    (_token : Option Token) : Except ParseError (List Json) :=
  .ok (acc ++ [parse_context.value])

mutual

/-- value, from src/parser.rs lines 239-258. -/
def value : Nat → List Token → Nat → Except ParseError ParseContext
  | 0, _, _ => .error (ParseError.mk .UnexpectedEnd none none)
  | fuel + 1, tokens, start =>
    match tokens[start]? with
    | none => .error (ParseError.mk .UnexpectedEnd none none)
    | some start_token =>
      match start_token.token_type with
      | .Null => .ok (ParseContext.new Json.Null (start + 1))
      | .Bool x => .ok (ParseContext.new (Json.Bool x) (start + 1))
      | .Number x => .ok (ParseContext.new (Json.Number x) (start + 1))
      | .String x => .ok (ParseContext.new (Json.String x) (start + 1))
      | .OpenCurly => object fuel tokens start
      | .OpenSquare => array fuel tokens start
      | _ => .error (ParseError.mk .UnexpectedToken (some start_token) none)
termination_by structural fuel _ _ => fuel

/-- object, from src/parser.rs lines 190-215. -/
def object : Nat → List Token → Nat → Except ParseError ParseContext
  | 0, _, _ => .error (ParseError.mk .UnexpectedEnd none none)
  | fuel + 1, tokens, start =>
    match for_each_comma (fun t j => key_value_pair fuel t j) object_builder
        tokens (fuel + 1) (start + 1) none [] with
    | .error e => .error e
    | .ok (obj, i) =>
      match expect .CloseCurly .UnexpectedToken tokens i with
      | .ok _ => .ok (ParseContext.new (Json.Object obj) (i + 1))
      | .error e => .error e
termination_by structural fuel _ _ => fuel

/-- array, from src/parser.rs lines 217-237. -/
def array : Nat → List Token → Nat → Except ParseError ParseContext
  | 0, _, _ => .error (ParseError.mk .UnexpectedEnd none none)
  | fuel + 1, tokens, start =>
    match for_each_comma (fun t j => value fuel t j) array_builder
        tokens (fuel + 1) (start + 1) none [] with
    | .error e => .error e
    | .ok (arr, i) =>
      match expect .CloseSquare .UnexpectedToken tokens i with
      | .ok _ => .ok (ParseContext.new (Json.Array arr) (i + 1))
      | .error e => .error e
termination_by structural fuel _ _ => fuel

/-- key_value_pair, from src/parser.rs lines 165-188. -/
def key_value_pair : Nat → List Token → Nat → Except ParseError ParseContext
  | 0, _, _ => .error (ParseError.mk .UnexpectedEnd none none)
  | fuel + 1, tokens, start =>
    match expect_key tokens start with
    | .error parse_error => .error parse_error
    | .ok key =>
      match expect .Colon .MissingColon tokens (start + 1) with
      | .error e => .error e
      | .ok _ =>
        match value fuel tokens (start + 2) with
        | .error e => .error e
        | .ok value_parse_context =>
          .ok (ParseContext.key_value_pair key value_parse_context.value
            value_parse_context.next)
termination_by structural fuel _ _ => fuel

end

/-- parse, from src/parser.rs lines 260-265.  The fuel bound exceeds the
number of recursive calls any stream of this length can force. -/
def parse (tokens : List Token) : Except ParseError Json :=
  match value (4 * tokens.length + 4) tokens 0 with
  | .ok parse_context => .ok parse_context.value
  | .error parse_error => .error parse_error
theorem getElem?_append_some {α : Type} {l : List α} {i : Nat} {a : α}
    (extra : List α) (h : l[i]? = some a) : (l ++ extra)[i]? = some a := by
  induction l generalizing i with
  | nil => simp at h
  | cons x xs ih =>
    cases i with
    | zero => simpa using h
    | succ n =>
      simp only [List.cons_append, List.getElem?_cons_succ] at h ⊢
      exact ih h

theorem getElem?_some_lt {α : Type} {l : List α} {i : Nat} {a : α}
    (h : l[i]? = some a) : i < l.length := by
  induction l generalizing i with
  | nil => simp at h
  | cons x xs ih =>
    cases i with
    | zero => simp
    | succ n =>
      simp only [List.getElem?_cons_succ] at h
      simpa using ih h

theorem getElem?_none_of_le {α : Type} {l : List α} {i : Nat}
    (h : l.length ≤ i) : l[i]? = none := by
  induction l generalizing i with
  | nil => simp
  | cons x xs ih =>
    cases i with
    | zero => simp at h
    | succ n =>
      simp only [List.getElem?_cons_succ]
      exact ih (by simpa using h)
theorem expect_none {token_type : TokenType} {error_type : ParseErrorType}
    {tokens : List Token} {i : Nat} (h : tokens[i]? = none) :
    expect token_type error_type tokens i
      = .error (ParseError.mk .UnexpectedEnd none none) := by
  simp [expect, h]

theorem expect_some_eq {token_type : TokenType} {error_type : ParseErrorType}
    {tokens : List Token} {i : Nat} {t : Token} (h : tokens[i]? = some t)
    (ht : t.token_type = token_type) :
    expect token_type error_type tokens i = .ok t := by
  simp [expect, h, ht]

theorem expect_some_ne {token_type : TokenType} {error_type : ParseErrorType}
    {tokens : List Token} {i : Nat} {t : Token} (h : tokens[i]? = some t)
    (ht : t.token_type ≠ token_type) :
    expect token_type error_type tokens i
      = .error (ParseError.mk error_type (some t) (some token_type)) := by
  simp [expect, h, ht]

theorem expect_ok_elim {token_type : TokenType} {error_type : ParseErrorType}
    {tokens : List Token} {i : Nat} {tok : Token}
    (h : expect token_type error_type tokens i = .ok tok) :
    tokens[i]? = some tok ∧ tok.token_type = token_type := by
  unfold expect at h
  cases hg : tokens[i]? with
  | none => simp [hg] at h
  | some t =>
    simp only [hg] at h
    by_cases ht : t.token_type = token_type
    · simp only [ht, if_true] at h
      injection h with h2
      subst h2
      exact ⟨rfl, ht⟩
    · simp [ht] at h

theorem expect_stable_ok {token_type : TokenType} {error_type : ParseErrorType}
    {tokens : List Token} {i : Nat} {tok : Token} (extra : List Token)
    (h : expect token_type error_type tokens i = .ok tok) :
    expect token_type error_type (tokens ++ extra) i = .ok tok := by
  obtain ⟨hg, ht⟩ := expect_ok_elim h
  exact expect_some_eq (getElem?_append_some extra hg) ht

theorem expect_err_elim {token_type : TokenType} {error_type : ParseErrorType}
    {tokens : List Token} {i : Nat} {e : ParseError}
    (h : expect token_type error_type tokens i = .error e) :
    (tokens[i]? = none ∧ e = ParseError.mk .UnexpectedEnd none none) ∨
    (∃ t, tokens[i]? = some t ∧ t.token_type ≠ token_type ∧
      e = ParseError.mk error_type (some t) (some token_type)) := by
  unfold expect at h
  cases hg : tokens[i]? with
  | none =>
    simp only [hg] at h
    exact Or.inl ⟨rfl, by cases h; rfl⟩
  | some t =>
    simp only [hg] at h
    by_cases ht : t.token_type = token_type
    · simp [ht] at h
    · simp only [ht, if_false] at h
      exact Or.inr ⟨t, rfl, ht, by cases h; rfl⟩

theorem check_trailing_comma_ok_elim {last_comma : Option Token} {i j : Nat}
    (h : check_trailing_comma last_comma i = .ok j) : j = i := by
  unfold check_trailing_comma at h
  cases last_comma with
  | none => cases h; rfl
  | some t =>
    by_cases hc : t.col = i + 1
    · simp [hc] at h
    · simp only [hc, if_false] at h
      cases h; rfl
theorem check_trailing_comma_err_elim {last_comma : Option Token} {i : Nat}
    {e : ParseError} (h : check_trailing_comma last_comma i = .error e) :
    ∃ t, last_comma = some t ∧ t.col = i + 1 ∧
      e = ParseError.mk .TrailingComma (some t) none := by
  unfold check_trailing_comma at h
  cases last_comma with
  | none => simp at h
  | some t =>
    by_cases hc : t.col = i + 1
    · simp only [hc, if_true] at h
      injection h with h2
      exact ⟨t, rfl, hc, h2.symm⟩
    · simp [hc] at h

theorem for_each_comma_le {σ : Type}
    {getter : List Token → Nat → Except ParseError ParseContext}
    {builder : σ → ParseContext → Option Token → Except ParseError σ}
    {tokens : List Token}
    (Hprog : ∀ i ctx, getter tokens i = .ok ctx → i < ctx.next) :
    ∀ fuel i last_comma acc acc2 j,
      for_each_comma getter builder tokens fuel i last_comma acc = .ok (acc2, j) →
      i ≤ j := by
  intro fuel
  induction fuel with
  | zero =>
    intro i last_comma acc acc2 j h
    simp [for_each_comma] at h
  | succ fuel ih =>
    intro i last_comma acc acc2 j h
    rw [for_each_comma] at h
    cases hg : getter tokens i with
    | ok pc =>
      simp only [hg] at h
      cases hb : builder acc pc tokens[i]? with
      | error e => simp [hb] at h
      | ok acc3 =>
        simp only [hb] at h
        cases hc : expect .Comma .UnexpectedToken tokens pc.next with
        | ok ctok =>
          simp only [hc] at h
          have h2 := ih _ _ _ _ _ h
          have h3 := Hprog i pc hg
          omega
        | error e0 =>
          simp only [hc] at h
          cases hctc : check_trailing_comma last_comma pc.next with
          | ok j2 =>
            simp only [hctc] at h
            injection h with h4
            have h5 : j2 = pc.next := check_trailing_comma_ok_elim hctc
            have h6 := Hprog i pc hg
            have h7 : j2 = j := congrArg Prod.snd h4
            omega
          | error e1 => simp [hctc] at h
    | error pe =>
      simp only [hg] at h
      cases het : pe.error_type with
      | UnexpectedToken =>
        simp only [het] at h
        cases hctc : check_trailing_comma last_comma i with
        | ok j2 =>
          simp only [hctc] at h
          injection h with h4
          have h5 : j2 = i := check_trailing_comma_ok_elim hctc
          have h7 : j2 = j := congrArg Prod.snd h4
          omega
        | error e1 => simp [hctc] at h
      | UnexpectedEnd => simp [het] at h
      | DuplicateKey => simp [het] at h
      | TrailingComma => simp [het] at h
      | KeyNotInQuotes => simp [het] at h
      | MissingColon => simp [het] at h
theorem for_each_comma_err_not_ut {σ : Type}
    {getter : List Token → Nat → Except ParseError ParseContext}
    {builder : σ → ParseContext → Option Token → Except ParseError σ}
    {tokens : List Token}
    (Hbuilder : ∀ acc pc t e, builder acc pc t = .error e →
        e.error_type ≠ .UnexpectedToken) :
    ∀ fuel i last_comma acc e,
      for_each_comma getter builder tokens fuel i last_comma acc = .error e →
      e.error_type ≠ .UnexpectedToken := by
  intro fuel
  induction fuel with
  | zero =>
    intro i last_comma acc e h
    rw [for_each_comma] at h
    injection h with h2
    rw [← h2]
    simp
  | succ fuel ih =>
    intro i last_comma acc e h
    rw [for_each_comma] at h
    cases hg : getter tokens i with
    | ok pc =>
      simp only [hg] at h
      cases hb : builder acc pc tokens[i]? with
      | error e0 =>
        simp only [hb] at h
        injection h with h2
        rw [← h2]
        exact Hbuilder _ _ _ _ hb
      | ok acc3 =>
        simp only [hb] at h
        cases hc : expect .Comma .UnexpectedToken tokens pc.next with
        | ok ctok =>
          simp only [hc] at h
          exact ih _ _ _ _ h
        | error e0 =>
          simp only [hc] at h
          cases hctc : check_trailing_comma last_comma pc.next with
          | ok j2 => simp [hctc] at h
          | error e1 =>
            simp only [hctc] at h
            injection h with h2
            obtain ⟨t, _, _, he⟩ := check_trailing_comma_err_elim hctc
            rw [← h2, he]
            simp
    | error pe =>
      simp only [hg] at h
      cases het : pe.error_type with
      | UnexpectedToken =>
        simp only [het] at h
        cases hctc : check_trailing_comma last_comma i with
        | ok j2 => simp [hctc] at h
        | error e1 =>
          simp only [hctc] at h
          injection h with h2
          obtain ⟨t, _, _, he⟩ := check_trailing_comma_err_elim hctc
          rw [← h2, he]
          simp
      | UnexpectedEnd =>
        simp only [het] at h
        injection h with h2
        rw [← h2, het]
        simp
      | DuplicateKey =>
        simp only [het] at h
        injection h with h2
        rw [← h2, het]
        simp
      | TrailingComma =>
        simp only [het] at h
        injection h with h2
        rw [← h2, het]
        simp
      | KeyNotInQuotes =>
        simp only [het] at h
        injection h with h2
        rw [← h2, het]
        simp
      | MissingColon =>
        simp only [het] at h
        injection h with h2
        rw [← h2, het]
        simp
theorem for_each_comma_stable {σ : Type}
    {getter getter2 : List Token → Nat → Except ParseError ParseContext}
    {builder : σ → ParseContext → Option Token → Except ParseError σ}
    {tokens extra : List Token}
    (Hok : ∀ i ctx, getter tokens i = .ok ctx →
        getter2 (tokens ++ extra) i = .ok ctx)
    (Hut : ∀ i e, getter tokens i = .error e →
        e.error_type = .UnexpectedToken →
        getter2 (tokens ++ extra) i = .error e)
    (Hsome : ∀ i ctx, getter tokens i = .ok ctx → ∃ t, tokens[i]? = some t) :
    ∀ fuel fuel2, fuel ≤ fuel2 →
      ∀ i last_comma acc acc2 j t,
        for_each_comma getter builder tokens fuel i last_comma acc
          = .ok (acc2, j) →
        tokens[j]? = some t →
        for_each_comma getter2 builder (tokens ++ extra) fuel2 i last_comma acc
          = .ok (acc2, j) := by
  intro fuel
  induction fuel with
  | zero =>
    intro fuel2 hle i last_comma acc acc2 j t h ht
    simp [for_each_comma] at h
  | succ fuel ih =>
    intro fuel2 hle i last_comma acc acc2 j t h ht
    cases fuel2 with
    | zero => omega
    | succ f2 =>
      rw [for_each_comma] at h
      rw [for_each_comma]
      cases hg : getter tokens i with
      | ok pc =>
        simp only [hg] at h
        have hg2 := Hok i pc hg
        simp only [hg2]
        obtain ⟨t0, hsome⟩ := Hsome i pc hg
        have hsome2 := getElem?_append_some extra hsome
        rw [hsome] at h
        rw [hsome2]
        cases hb : builder acc pc (some t0) with
        | error e0 => simp [hb] at h
        | ok acc3 =>
          simp only [hb] at h ⊢
          cases hc : expect .Comma .UnexpectedToken tokens pc.next with
          | ok ctok =>
            simp only [hc] at h
            have hc2 := expect_stable_ok extra hc
            simp only [hc2]
            exact ih f2 (by omega) _ _ _ _ _ t h ht
          | error e0 =>
            simp only [hc] at h
            cases hctc : check_trailing_comma last_comma pc.next with
            | error e1 => simp [hctc] at h
            | ok j2 =>
              simp only [hctc] at h
              injection h with h4
              have hj : j2 = pc.next := check_trailing_comma_ok_elim hctc
              have hacc : acc3 = acc2 := congrArg Prod.fst h4
              have hjj : j2 = j := congrArg Prod.snd h4
              rcases expect_err_elim hc with ⟨hnone, _⟩ | ⟨t1, hg1, hneq, _⟩
              · rw [hj] at hjj
                rw [hjj] at hnone
                rw [hnone] at ht
                exact absurd ht (by simp)
              · have hc2 := @expect_some_ne TokenType.Comma
                  ParseErrorType.UnexpectedToken (tokens ++ extra)
                  pc.next t1 (getElem?_append_some extra hg1) hneq
                simp only [hc2, hctc]
                rw [hacc, hjj]
      | error pe =>
        simp only [hg] at h
        cases het : pe.error_type with
        | UnexpectedToken =>
          simp only [het] at h
          cases hctc : check_trailing_comma last_comma i with
          | error e1 => simp [hctc] at h
          | ok j2 =>
            simp only [hctc] at h
            injection h with h4
            have hg2 := Hut i pe hg het
            simp only [hg2, het, hctc]
            exact congrArg Except.ok h4
        | UnexpectedEnd => simp [het] at h
        | DuplicateKey => simp [het] at h
        | TrailingComma => simp [het] at h
        | KeyNotInQuotes => simp [het] at h
        | MissingColon => simp [het] at h
theorem expect_key_ok_elim {tokens : List Token} {i : Nat} {s : String}
    (h : expect_key tokens i = .ok s) :
    ∃ t, tokens[i]? = some t ∧ t.token_type = TokenType.String s := by
  unfold expect_key at h
  cases hg : tokens[i]? with
  | none => simp [hg] at h
  | some t =>
    simp only [hg] at h
    cases htt : t.token_type with
    | String s2 =>
      simp only [htt] at h
      injection h with h2
      exact ⟨t, rfl, by rw [htt, h2]⟩
    | Null => simp [htt] at h
    | Bool b => simp [htt] at h
    | Number n => simp [htt] at h
    | Colon => simp [htt] at h
    | Comma => simp [htt] at h
    | OpenCurly => simp [htt] at h
    | CloseCurly => simp [htt] at h
    | OpenSquare => simp [htt] at h
    | CloseSquare => simp [htt] at h

theorem expect_key_err_elim {tokens : List Token} {i : Nat} {e : ParseError}
    (h : expect_key tokens i = .error e) :
    e.error_type = .KeyNotInQuotes ∨ e.error_type = .UnexpectedEnd := by
  unfold expect_key at h
  cases hg : tokens[i]? with
  | none =>
    simp only [hg] at h
    injection h with h2
    rw [← h2]
    exact Or.inr rfl
  | some t =>
    simp only [hg] at h
    cases htt : t.token_type with
    | String s2 => simp [htt] at h
    | Null => simp only [htt] at h; injection h with h2; rw [← h2]; exact Or.inl rfl
    | Bool b => simp only [htt] at h; injection h with h2; rw [← h2]; exact Or.inl rfl
    | Number n => simp only [htt] at h; injection h with h2; rw [← h2]; exact Or.inl rfl
    | Colon => simp only [htt] at h; injection h with h2; rw [← h2]; exact Or.inl rfl
    | Comma => simp only [htt] at h; injection h with h2; rw [← h2]; exact Or.inl rfl
    | OpenCurly => simp only [htt] at h; injection h with h2; rw [← h2]; exact Or.inl rfl
    | CloseCurly => simp only [htt] at h; injection h with h2; rw [← h2]; exact Or.inl rfl
    | OpenSquare => simp only [htt] at h; injection h with h2; rw [← h2]; exact Or.inl rfl
    | CloseSquare => simp only [htt] at h; injection h with h2; rw [← h2]; exact Or.inl rfl

theorem expect_key_stable_ok {tokens : List Token} {i : Nat} {s : String}
    (extra : List Token) (h : expect_key tokens i = .ok s) :
    expect_key (tokens ++ extra) i = .ok s := by
  obtain ⟨t, hg, htt⟩ := expect_key_ok_elim h
  unfold expect_key
  simp only [getElem?_append_some extra hg, htt]

theorem object_builder_err_not_ut {acc : List (Prod String Json)}
    {pc : ParseContext} {t : Option Token} {e : ParseError}
    (h : object_builder acc pc t = .error e) :
    e.error_type ≠ .UnexpectedToken := by
  unfold object_builder at h
  by_cases hd : acc.any (fun p => p.1 = pc.key)
  · simp only [hd, if_true] at h
    injection h with h2
    rw [← h2]
    simp
  · simp [hd] at h

theorem array_builder_err_not_ut {acc : List Json}
    {pc : ParseContext} {t : Option Token} {e : ParseError}
    (h : array_builder acc pc t = .error e) :
    e.error_type ≠ .UnexpectedToken := by
  simp [array_builder] at h

theorem value_ok_some {fuel : Nat} {tokens : List Token} {start : Nat}
    {ctx : ParseContext} (h : value fuel tokens start = .ok ctx) :
    ∃ t, tokens[start]? = some t := by
  cases fuel with
  | zero => simp [value] at h
  | succ f =>
    rw [value] at h
    cases hg : tokens[start]? with
    | none => simp [hg] at h
    | some t => exact ⟨t, rfl⟩

theorem key_value_pair_ok_elim {fuel : Nat} {tokens : List Token} {start : Nat}
    {ctx : ParseContext} (h : key_value_pair fuel tokens start = .ok ctx) :
    ∃ t s ct vc, tokens[start]? = some t ∧ t.token_type = TokenType.String s ∧
      ctx.key = s ∧ expect .Colon .MissingColon tokens (start + 1) = .ok ct ∧
      value (fuel - 1) tokens (start + 2) = .ok vc ∧
      ctx = ParseContext.key_value_pair s vc.value vc.next := by
  cases fuel with
  | zero => simp [key_value_pair] at h
  | succ f =>
    rw [key_value_pair] at h
    cases hk : expect_key tokens start with
    | error e => simp [hk] at h
    | ok key =>
      simp only [hk] at h
      cases hcol : expect .Colon .MissingColon tokens (start + 1) with
      | error e => simp [hcol] at h
      | ok ct =>
        simp only [hcol] at h
        cases hv : value f tokens (start + 2) with
        | error e => simp [hv] at h
        | ok vc =>
          simp only [hv] at h
          injection h with h2
          obtain ⟨t, hg, htt⟩ := expect_key_ok_elim hk
          refine ⟨t, key, ct, vc, hg, htt, ?_, rfl, by simpa using hv, ?_⟩
          · rw [← h2]
            rfl
          · rw [← h2]
/-- Stability of the parser under appending tokens and raising fuel: a
successful parse step, and an error step of kind UnexpectedToken, give
the same result on any extension of the stream. -/
theorem parser_stable (tokens extra : List Token) :
    ∀ fuel fuel2, fuel ≤ fuel2 → ∀ start,
      ((∀ ctx, value fuel tokens start = .ok ctx →
          value fuel2 (tokens ++ extra) start = .ok ctx) ∧
        (∀ e, value fuel tokens start = .error e →
          e.error_type = .UnexpectedToken →
          value fuel2 (tokens ++ extra) start = .error e)) ∧
      ((∀ ctx, object fuel tokens start = .ok ctx →
          object fuel2 (tokens ++ extra) start = .ok ctx) ∧
        (∀ e, object fuel tokens start = .error e →
          e.error_type = .UnexpectedToken →
          object fuel2 (tokens ++ extra) start = .error e)) ∧
      ((∀ ctx, array fuel tokens start = .ok ctx →
          array fuel2 (tokens ++ extra) start = .ok ctx) ∧
        (∀ e, array fuel tokens start = .error e →
          e.error_type = .UnexpectedToken →
          array fuel2 (tokens ++ extra) start = .error e)) ∧
      ((∀ ctx, key_value_pair fuel tokens start = .ok ctx →
          key_value_pair fuel2 (tokens ++ extra) start = .ok ctx) ∧
        (∀ e, key_value_pair fuel tokens start = .error e →
          e.error_type = .UnexpectedToken →
          key_value_pair fuel2 (tokens ++ extra) start = .error e)) := by
  intro fuel
  induction fuel with
  | zero =>
    intro fuel2 hle start
    refine ⟨⟨?_, ?_⟩, ⟨?_, ?_⟩, ⟨?_, ?_⟩, ⟨?_, ?_⟩⟩
    · intro ctx h
      rw [value] at h
      exact Except.noConfusion h
    · intro e h h2
      rw [value] at h
      injection h with h3
      rw [← h3] at h2
      simp at h2
    · intro ctx h
      rw [object] at h
      exact Except.noConfusion h
    · intro e h h2
      rw [object] at h
      injection h with h3
      rw [← h3] at h2
      simp at h2
    · intro ctx h
      rw [array] at h
      exact Except.noConfusion h
    · intro e h h2
      rw [array] at h
      injection h with h3
      rw [← h3] at h2
      simp at h2
    · intro ctx h
      rw [key_value_pair] at h
      exact Except.noConfusion h
    · intro e h h2
      rw [key_value_pair] at h
      injection h with h3
      rw [← h3] at h2
      simp at h2
  | succ f ih =>
    intro fuel2 hle start
    cases fuel2 with
    | zero => omega
    | succ f2 =>
      have hle2 : f ≤ f2 := by omega
      have IH2 := ih f2 hle2
      have hv_ok := fun st => ((IH2 st).1).1
      have hv_ut := fun st => ((IH2 st).1).2
      have ho_ok := fun st => ((IH2 st).2.1).1
      have ho_ut := fun st => ((IH2 st).2.1).2
      have ha_ok := fun st => ((IH2 st).2.2.1).1
      have ha_ut := fun st => ((IH2 st).2.2.1).2
      have hk_ok := fun st => ((IH2 st).2.2.2).1
      have hk_ut := fun st => ((IH2 st).2.2.2).2
      have kvp_some : ∀ i2 ctx2, key_value_pair f tokens i2 = .ok ctx2 →
          ∃ t2, tokens[i2]? = some t2 := by
        intro i2 ctx2 hh
        obtain ⟨t2, _, _, _, hg2, _⟩ := key_value_pair_ok_elim hh
        exact ⟨t2, hg2⟩
      have val_some : ∀ i2 ctx2, value f tokens i2 = .ok ctx2 →
          ∃ t2, tokens[i2]? = some t2 := fun i2 ctx2 hh => value_ok_some hh
      have obj_ok : ∀ st ctx, object (f + 1) tokens st = .ok ctx →
          object (f2 + 1) (tokens ++ extra) st = .ok ctx := by
        intro st ctx h
        rw [object] at h ⊢
        cases hL : for_each_comma (fun t j => key_value_pair f t j)
            object_builder tokens (f + 1) (st + 1) none [] with
        | error e0 => simp [hL] at h
        | ok p =>
          obtain ⟨obj, i⟩ := p
          simp only [hL] at h
          cases hce : expect .CloseCurly .UnexpectedToken tokens i with
          | error e0 => simp [hce] at h
          | ok ct =>
            simp only [hce] at h
            obtain ⟨hgi, _⟩ := expect_ok_elim hce
            have hL2 := for_each_comma_stable hk_ok hk_ut kvp_some
              (f + 1) (f2 + 1) (by omega) (st + 1) none [] obj i ct hL hgi
            simp only [hL2, expect_stable_ok extra hce]
            exact h
      have obj_ut : ∀ st e, object (f + 1) tokens st = .error e →
          e.error_type = .UnexpectedToken →
          object (f2 + 1) (tokens ++ extra) st = .error e := by
        intro st e h h2
        rw [object] at h ⊢
        cases hL : for_each_comma (fun t j => key_value_pair f t j)
            object_builder tokens (f + 1) (st + 1) none [] with
        | error e0 =>
          simp only [hL] at h
          injection h with h3
          rw [← h3] at h2
          exact absurd h2 (for_each_comma_err_not_ut
            (fun a b c d hh => object_builder_err_not_ut hh) _ _ _ _ _ hL)
        | ok p =>
          obtain ⟨obj, i⟩ := p
          simp only [hL] at h
          cases hce : expect .CloseCurly .UnexpectedToken tokens i with
          | ok ct => simp [hce] at h
          | error e0 =>
            simp only [hce] at h
            injection h with h3
            subst h3
            rcases expect_err_elim hce with ⟨hnone, he⟩ | ⟨t1, hg1, hneq, he⟩
            · rw [he] at h2
              simp at h2
            · have hL2 := for_each_comma_stable hk_ok hk_ut kvp_some
                (f + 1) (f2 + 1) (by omega) (st + 1) none [] obj i t1 hL hg1
              simp only [hL2,
                expect_some_ne (getElem?_append_some extra hg1) hneq, he]
      have arr_ok : ∀ st ctx, array (f + 1) tokens st = .ok ctx →
          array (f2 + 1) (tokens ++ extra) st = .ok ctx := by
        intro st ctx h
        rw [array] at h ⊢
        cases hL : for_each_comma (fun t j => value f t j)
            array_builder tokens (f + 1) (st + 1) none [] with
        | error e0 => simp [hL] at h
        | ok p =>
          obtain ⟨arr, i⟩ := p
          simp only [hL] at h
          cases hce : expect .CloseSquare .UnexpectedToken tokens i with
          | error e0 => simp [hce] at h
          | ok ct =>
            simp only [hce] at h
            obtain ⟨hgi, _⟩ := expect_ok_elim hce
            have hL2 := for_each_comma_stable hv_ok hv_ut val_some
              (f + 1) (f2 + 1) (by omega) (st + 1) none [] arr i ct hL hgi
            simp only [hL2, expect_stable_ok extra hce]
            exact h
      have arr_ut : ∀ st e, array (f + 1) tokens st = .error e →
          e.error_type = .UnexpectedToken →
          array (f2 + 1) (tokens ++ extra) st = .error e := by
        intro st e h h2
        rw [array] at h ⊢
        cases hL : for_each_comma (fun t j => value f t j)
            array_builder tokens (f + 1) (st + 1) none [] with
        | error e0 =>
          simp only [hL] at h
          injection h with h3
          rw [← h3] at h2
          exact absurd h2 (for_each_comma_err_not_ut
            (fun a b c d hh => array_builder_err_not_ut hh) _ _ _ _ _ hL)
        | ok p =>
          obtain ⟨arr, i⟩ := p
          simp only [hL] at h
          cases hce : expect .CloseSquare .UnexpectedToken tokens i with
          | ok ct => simp [hce] at h
          | error e0 =>
            simp only [hce] at h
            injection h with h3
            subst h3
            rcases expect_err_elim hce with ⟨hnone, he⟩ | ⟨t1, hg1, hneq, he⟩
            · rw [he] at h2
              simp at h2
            · have hL2 := for_each_comma_stable hv_ok hv_ut val_some
                (f + 1) (f2 + 1) (by omega) (st + 1) none [] arr i t1 hL hg1
              simp only [hL2,
                expect_some_ne (getElem?_append_some extra hg1) hneq, he]
      have kvp_ok2 : ∀ st ctx, key_value_pair (f + 1) tokens st = .ok ctx →
          key_value_pair (f2 + 1) (tokens ++ extra) st = .ok ctx := by
        intro st ctx h
        rw [key_value_pair] at h ⊢
        cases hk : expect_key tokens st with
        | error e0 => simp [hk] at h
        | ok key =>
          simp only [hk] at h
          simp only [expect_key_stable_ok extra hk]
          cases hcol : expect .Colon .MissingColon tokens (st + 1) with
          | error e0 => simp [hcol] at h
          | ok ct =>
            simp only [hcol] at h
            simp only [expect_stable_ok extra hcol]
            cases hv : value f tokens (st + 2) with
            | error e0 => simp [hv] at h
            | ok vc =>
              simp only [hv] at h
              simp only [hv_ok (st + 2) vc hv]
              exact h
      have kvp_ut2 : ∀ st e, key_value_pair (f + 1) tokens st = .error e →
          e.error_type = .UnexpectedToken →
          key_value_pair (f2 + 1) (tokens ++ extra) st = .error e := by
        intro st e h h2
        rw [key_value_pair] at h ⊢
        cases hk : expect_key tokens st with
        | error e0 =>
          simp only [hk] at h
          injection h with h3
          subst h3
          rcases expect_key_err_elim hk with he | he <;> rw [h2] at he <;>
            simp at he
        | ok key =>
          simp only [hk] at h
          simp only [expect_key_stable_ok extra hk]
          cases hcol : expect .Colon .MissingColon tokens (st + 1) with
          | error e0 =>
            simp only [hcol] at h
            injection h with h3
            subst h3
            rcases expect_err_elim hcol with ⟨_, he⟩ | ⟨t1, _, _, he⟩ <;>
              rw [he] at h2 <;> simp at h2
          | ok ct =>
            simp only [hcol] at h
            simp only [expect_stable_ok extra hcol]
            cases hv : value f tokens (st + 2) with
            | ok vc => simp [hv] at h
            | error e0 =>
              simp only [hv] at h
              injection h with h3
              rw [← h3] at h2
              simp only [hv_ut (st + 2) e0 hv h2]
              rw [h3]
      have val_ok2 : ∀ st ctx, value (f + 1) tokens st = .ok ctx →
          value (f2 + 1) (tokens ++ extra) st = .ok ctx := by
        intro st ctx h
        rw [value] at h ⊢
        cases hg : tokens[st]? with
        | none => simp [hg] at h
        | some t =>
          simp only [hg] at h
          simp only [getElem?_append_some extra hg]
          cases htt : t.token_type with
          | Null => simp only [htt] at h ⊢; exact h
          | Bool b => simp only [htt] at h ⊢; exact h
          | Number n => simp only [htt] at h ⊢; exact h
          | String s => simp only [htt] at h ⊢; exact h
          | OpenCurly => simp only [htt] at h ⊢; exact ho_ok st ctx h
          | OpenSquare => simp only [htt] at h ⊢; exact ha_ok st ctx h
          | Colon => simp [htt] at h
          | Comma => simp [htt] at h
          | CloseCurly => simp [htt] at h
          | CloseSquare => simp [htt] at h
      have val_ut2 : ∀ st e, value (f + 1) tokens st = .error e →
          e.error_type = .UnexpectedToken →
          value (f2 + 1) (tokens ++ extra) st = .error e := by
        intro st e h h2
        rw [value] at h ⊢
        cases hg : tokens[st]? with
        | none =>
          simp only [hg] at h
          injection h with h3
          rw [← h3] at h2
          simp at h2
        | some t =>
          simp only [hg] at h
          simp only [getElem?_append_some extra hg]
          cases htt : t.token_type with
          | Null => simp [htt] at h
          | Bool b => simp [htt] at h
          | Number n => simp [htt] at h
          | String s => simp [htt] at h
          | OpenCurly => simp only [htt] at h ⊢; exact ho_ut st e h h2
          | OpenSquare => simp only [htt] at h ⊢; exact ha_ut st e h h2
          | Colon => simp only [htt] at h ⊢; injection h with h3; rw [h3]
          | Comma => simp only [htt] at h ⊢; injection h with h3; rw [h3]
          | CloseCurly => simp only [htt] at h ⊢; injection h with h3; rw [h3]
          | CloseSquare => simp only [htt] at h ⊢; injection h with h3; rw [h3]
      exact ⟨⟨val_ok2 start, val_ut2 start⟩, ⟨obj_ok start, obj_ut start⟩,
        ⟨arr_ok start, arr_ut start⟩, ⟨kvp_ok2 start, kvp_ut2 start⟩⟩
/-- Progress: every successful parse step consumes at least one token
and never reports a position past the end of the stream. -/
theorem parser_progress (tokens : List Token) :
    ∀ fuel start,
      (∀ ctx, value fuel tokens start = .ok ctx →
        start < ctx.next ∧ ctx.next ≤ tokens.length) ∧
      (∀ ctx, object fuel tokens start = .ok ctx →
        start < ctx.next ∧ ctx.next ≤ tokens.length) ∧
      (∀ ctx, array fuel tokens start = .ok ctx →
        start < ctx.next ∧ ctx.next ≤ tokens.length) ∧
      (∀ ctx, key_value_pair fuel tokens start = .ok ctx →
        start < ctx.next ∧ ctx.next ≤ tokens.length) := by
  intro fuel
  induction fuel with
  | zero =>
    intro start
    refine ⟨?_, ?_, ?_, ?_⟩
    · intro ctx h
      rw [value] at h
      exact Except.noConfusion h
    · intro ctx h
      rw [object] at h
      exact Except.noConfusion h
    · intro ctx h
      rw [array] at h
      exact Except.noConfusion h
    · intro ctx h
      rw [key_value_pair] at h
      exact Except.noConfusion h
  | succ f ih =>
    intro start
    have obj2 : ∀ st ctx, object (f + 1) tokens st = .ok ctx →
        st < ctx.next ∧ ctx.next ≤ tokens.length := by
      intro st ctx h
      rw [object] at h
      cases hL : for_each_comma (fun t j => key_value_pair f t j)
          object_builder tokens (f + 1) (st + 1) none [] with
      | error e0 => simp [hL] at h
      | ok p =>
        obtain ⟨obj, i⟩ := p
        simp only [hL] at h
        cases hce : expect .CloseCurly .UnexpectedToken tokens i with
        | error e0 => simp [hce] at h
        | ok ct =>
          simp only [hce] at h
          injection h with h3
          have hli : st + 1 ≤ i := for_each_comma_le
            (fun i2 ctx2 hh => ((ih i2).2.2.2 ctx2 hh).1)
            (f + 1) (st + 1) none [] obj i hL
          obtain ⟨hgi, _⟩ := expect_ok_elim hce
          have hlen := getElem?_some_lt hgi
          have hnext : ctx.next = i + 1 := by rw [← h3]; rfl
          rw [hnext]
          exact ⟨by omega, by omega⟩
    have arr2 : ∀ st ctx, array (f + 1) tokens st = .ok ctx →
        st < ctx.next ∧ ctx.next ≤ tokens.length := by
      intro st ctx h
      rw [array] at h
      cases hL : for_each_comma (fun t j => value f t j)
          array_builder tokens (f + 1) (st + 1) none [] with
      | error e0 => simp [hL] at h
      | ok p =>
        obtain ⟨arr, i⟩ := p
        simp only [hL] at h
        cases hce : expect .CloseSquare .UnexpectedToken tokens i with
        | error e0 => simp [hce] at h
        | ok ct =>
          simp only [hce] at h
          injection h with h3
          have hli : st + 1 ≤ i := for_each_comma_le
            (fun i2 ctx2 hh => ((ih i2).1 ctx2 hh).1)
            (f + 1) (st + 1) none [] arr i hL
          obtain ⟨hgi, _⟩ := expect_ok_elim hce
          have hlen := getElem?_some_lt hgi
          have hnext : ctx.next = i + 1 := by rw [← h3]; rfl
          rw [hnext]
          exact ⟨by omega, by omega⟩
    have kvp2 : ∀ st ctx, key_value_pair (f + 1) tokens st = .ok ctx →
        st < ctx.next ∧ ctx.next ≤ tokens.length := by
      intro st ctx h
      obtain ⟨t, s, ct, vc, hg, htt, hkey, hcol, hv, hctx⟩ :=
        key_value_pair_ok_elim h
      have h6 := ((ih (st + 2)).1 vc (by simpa using hv))
      have hnext : ctx.next = vc.next := by rw [hctx]; rfl
      rw [hnext]
      exact ⟨by omega, h6.2⟩
    have val2 : ∀ st ctx, value (f + 1) tokens st = .ok ctx →
        st < ctx.next ∧ ctx.next ≤ tokens.length := by
      intro st ctx h
      rw [value] at h
      cases hg : tokens[st]? with
      | none => simp [hg] at h
      | some t =>
        simp only [hg] at h
        have hlen := getElem?_some_lt hg
        cases htt : t.token_type with
        | Null =>
          simp only [htt] at h
          injection h with h3
          have hnext : ctx.next = st + 1 := by rw [← h3]; rfl
          rw [hnext]
          exact ⟨by omega, by omega⟩
        | Bool b =>
          simp only [htt] at h
          injection h with h3
          have hnext : ctx.next = st + 1 := by rw [← h3]; rfl
          rw [hnext]
          exact ⟨by omega, by omega⟩
        | Number n =>
          simp only [htt] at h
          injection h with h3
          have hnext : ctx.next = st + 1 := by rw [← h3]; rfl
          rw [hnext]
          exact ⟨by omega, by omega⟩
        | String s =>
          simp only [htt] at h
          injection h with h3
          have hnext : ctx.next = st + 1 := by rw [← h3]; rfl
          rw [hnext]
          exact ⟨by omega, by omega⟩
        | OpenCurly => simp only [htt] at h; exact (ih st).2.1 ctx h
        | OpenSquare => simp only [htt] at h; exact (ih st).2.2.1 ctx h
        | Colon => simp [htt] at h
        | Comma => simp [htt] at h
        | CloseCurly => simp [htt] at h
        | CloseSquare => simp [htt] at h
    exact ⟨val2 start, obj2 start, arr2 start, kvp2 start⟩
/-- Token stream of the text [1,2,] with zero-based source columns. -/
def c1_stream_a : List Token :=
  [⟨.OpenSquare, 0, 0⟩, ⟨.Number 1, 0, 1⟩, ⟨.Comma, 0, 2⟩,
   ⟨.Number 2, 0, 3⟩, ⟨.Comma, 0, 4⟩, ⟨.CloseSquare, 0, 5⟩]

/-- The same token-type sequence as c1_stream_a, with the columns the
text [1,  2,] produces. -/
def c1_stream_b : List Token :=
  [⟨.OpenSquare, 0, 0⟩, ⟨.Number 1, 0, 1⟩, ⟨.Comma, 0, 2⟩,
   ⟨.Number 2, 0, 5⟩, ⟨.Comma, 0, 6⟩, ⟨.CloseSquare, 0, 7⟩]

/-- Token stream of the valid JSON text [1   , 2] with zero-based
columns: no trailing comma is present. -/
def c1_stream_c : List Token :=
  [⟨.OpenSquare, 0, 0⟩, ⟨.Number 1, 0, 1⟩, ⟨.Comma, 0, 5⟩,
   ⟨.Number 2, 0, 7⟩, ⟨.CloseSquare, 0, 8⟩]

/-- C1: the trailing-comma judgment of the code is not structural and is
not position-independent.  The stream of [1,2,] (a trailing comma) is
accepted as the two-element array; the identical token-type sequence
with the columns of [1,  2,] fails with TrailingComma; and the stream of
the valid text [1   , 2], which has no trailing comma, also fails with
TrailingComma.  So the same token-type sequence yields different
verdicts depending only on columns, a consumed trailing comma can go
undetected, and a non-trailing comma can be flagged. -/
theorem C1_trailing_comma_column_dependent :
    parse c1_stream_a = .ok (Json.Array [Json.Number 1, Json.Number 2]) ∧
    parse c1_stream_b
      = .error (ParseError.mk .TrailingComma (some ⟨.Comma, 0, 6⟩) none) ∧
    parse c1_stream_c
      = .error (ParseError.mk .TrailingComma (some ⟨.Comma, 0, 5⟩) none) :=
  ⟨rfl, rfl, rfl⟩

/-- C2: the well-formed text {} (an empty object) is rejected with
KeyNotInQuotes carrying the closing brace, while the empty array []
parses; so parse does not succeed on every well-formed JSON text. -/
theorem C2_empty_object_rejected :
    parse [⟨.OpenCurly, 0, 0⟩, ⟨.CloseCurly, 0, 1⟩]
      = .error (ParseError.mk .KeyNotInQuotes (some ⟨.CloseCurly, 0, 1⟩) none) ∧
    parse [⟨.OpenSquare, 0, 0⟩, ⟨.CloseSquare, 0, 1⟩] = .ok (Json.Array []) :=
  ⟨rfl, rfl⟩

/-- C4: expect fails with UnexpectedEnd and no offending token when the
index is beyond the stream, fails with the given error kind carrying the
token and the expected type on a type mismatch, and returns the token on
a match. -/
theorem C4_expect_contract :
    ∀ (token_type : TokenType) (error_type : ParseErrorType)
      (tokens : List Token) (i : Nat),
      (tokens.length ≤ i →
        expect token_type error_type tokens i
          = .error (ParseError.mk .UnexpectedEnd none none)) ∧
      (∀ t, tokens[i]? = some t → t.token_type ≠ token_type →
        expect token_type error_type tokens i
          = .error (ParseError.mk error_type (some t) (some token_type))) ∧
      (∀ t, tokens[i]? = some t → t.token_type = token_type →
        expect token_type error_type tokens i = .ok t) :=
  fun _ _ _ _ =>
    ⟨fun h => expect_none (getElem?_none_of_le h),
     fun _ h ht => expect_some_ne h ht,
     fun _ h ht => expect_some_eq h ht⟩

theorem C4_expect_contract_witness :
    ([] : List Token).length ≤ 0 ∧
    expect TokenType.Colon ParseErrorType.MissingColon [] 0
      = .error (ParseError.mk .UnexpectedEnd none none) ∧
    expect TokenType.Colon ParseErrorType.MissingColon [⟨.Comma, 0, 0⟩] 0
      = .error (ParseError.mk .MissingColon (some ⟨.Comma, 0, 0⟩)
          (some TokenType.Colon)) ∧
    expect TokenType.Colon ParseErrorType.UnexpectedToken [⟨.Colon, 0, 0⟩] 0
      = .ok ⟨.Colon, 0, 0⟩ :=
  ⟨by decide,
   (C4_expect_contract TokenType.Colon ParseErrorType.MissingColon [] 0).1
     (by decide),
   (C4_expect_contract TokenType.Colon ParseErrorType.MissingColon
     [⟨.Comma, 0, 0⟩] 0).2.1 ⟨.Comma, 0, 0⟩ rfl (by decide),
   (C4_expect_contract TokenType.Colon ParseErrorType.UnexpectedToken
     [⟨.Colon, 0, 0⟩] 0).2.2 ⟨.Colon, 0, 0⟩ rfl rfl⟩

/-- C7: parse of the empty stream fails with UnexpectedEnd and no
offending token; parse of any stream whose first token is Colon, Comma,
CloseCurly or CloseSquare fails with UnexpectedToken carrying that first
token. -/
theorem C7_first_token_errors :
    parse [] = .error (ParseError.mk .UnexpectedEnd none none) ∧
    ∀ (t : Token) (rest : List Token),
      (t.token_type = .Colon ∨ t.token_type = .Comma ∨
        t.token_type = .CloseCurly ∨ t.token_type = .CloseSquare) →
      parse (t :: rest)
        = .error (ParseError.mk .UnexpectedToken (some t) none) := by
  constructor
  · rfl
  · intro t rest hcase
    show (match value (4 * (t :: rest).length + 4) (t :: rest) 0 with
      | .ok parse_context => Except.ok parse_context.value
      | .error parse_error => Except.error parse_error) = _
    have h4 : 4 * (t :: rest).length + 4 = (4 * (t :: rest).length + 3) + 1 := rfl
    rw [h4, value]
    have hg : (t :: rest)[0]? = some t := by simp
    rcases hcase with h | h | h | h <;> simp [hg, h]

theorem C7_first_token_errors_witness :
    parse [Token.mk .CloseSquare 0 0]
      = .error (ParseError.mk .UnexpectedToken (some ⟨.CloseSquare, 0, 0⟩) none) :=
  C7_first_token_errors.2 ⟨.CloseSquare, 0, 0⟩ []
    (Or.inr (Or.inr (Or.inr rfl)))

/-- C9: the two-token stream of an empty object, OpenCurly then
CloseCurly at any source positions, is rejected: the key/value-pair
element parser fails on the closing brace with KeyNotInQuotes, and the
comma-list iterator propagates any element failure whose kind is not
UnexpectedToken instead of ending the list, so parse fails with
KeyNotInQuotes carrying the CloseCurly token. -/
theorem C9_empty_object_key_not_in_quotes :
    ∀ l1 c1 l2 c2 : Nat,
      parse [Token.mk .OpenCurly l1 c1, Token.mk .CloseCurly l2 c2]
        = .error (ParseError.mk .KeyNotInQuotes
            (some (Token.mk .CloseCurly l2 c2)) none) :=
  fun _ _ _ _ => rfl
/-- Token stream of the text {"foo":123, "foo": 432} with zero-based
columns. -/
def c3_tokens : List Token :=
  [⟨.OpenCurly, 0, 0⟩, ⟨.String "foo", 0, 1⟩, ⟨.Colon, 0, 6⟩,
   ⟨.Number 123, 0, 7⟩, ⟨.Comma, 0, 10⟩, ⟨.String "foo", 0, 12⟩,
   ⟨.Colon, 0, 17⟩, ⟨.Number 432, 0, 19⟩, ⟨.CloseCurly, 0, 23⟩]

/-- C3: whenever the key/value-pair element parser succeeds at a
position whose key is already recorded in the accumulated object, the
comma-list iteration for objects returns exactly DuplicateKey carrying
the token at that position, which is the later colliding key occurrence
(a String token equal to the context key); and the spec example
{"foo":123, "foo": 432} aborts the whole parse with DuplicateKey
carrying the second "foo" token, so the object never completes. -/
theorem C3_duplicate_key :
    (∀ (fuel loop_fuel : Nat) (tokens : List Token) (i : Nat)
        (last_comma : Option Token) (acc : List (Prod String Json))
        (ctx : ParseContext) (t : Token),
      key_value_pair fuel tokens i = .ok ctx →
      tokens[i]? = some t →
      acc.any (fun p => p.1 = ctx.key) = true →
      (∃ s, t.token_type = TokenType.String s ∧ ctx.key = s) ∧
      for_each_comma (fun t2 j => key_value_pair fuel t2 j) object_builder
        tokens (loop_fuel + 1) i last_comma acc
        = .error (ParseError.mk .DuplicateKey (some t) none)) ∧
    parse c3_tokens
      = .error (ParseError.mk .DuplicateKey
          (some ⟨.String "foo", 0, 12⟩) none) := by
  constructor
  · intro fuel loop_fuel tokens i last_comma acc ctx t h1 h2 h3
    constructor
    · obtain ⟨t0, s, ct, vc, hg, htt, hkey, _, _, _⟩ := key_value_pair_ok_elim h1
      rw [h2] at hg
      injection hg with hg2
      exact ⟨s, by rw [hg2]; exact htt, hkey⟩
    · rw [for_each_comma]
      simp [h1, h2, object_builder, h3]
  · rfl

theorem C3_duplicate_key_witness :
    key_value_pair 5 c3_tokens 5
      = .ok (ParseContext.key_value_pair "foo" (Json.Number 432) 8) ∧
    ([("foo", Json.Number 123)].any
      (fun p => p.1 = (ParseContext.key_value_pair "foo" (Json.Number 432) 8).key))
      = true ∧
    for_each_comma (fun t2 j => key_value_pair 5 t2 j) object_builder
      c3_tokens 1 5 (some ⟨.Comma, 0, 10⟩) [("foo", Json.Number 123)]
      = .error (ParseError.mk .DuplicateKey (some ⟨.String "foo", 0, 12⟩) none) :=
  ⟨rfl, rfl, (C3_duplicate_key.1 5 0 c3_tokens 5 (some ⟨.Comma, 0, 10⟩)
    [("foo", Json.Number 123)]
    (ParseContext.key_value_pair "foo" (Json.Number 432) 8)
    ⟨.String "foo", 0, 12⟩ rfl rfl rfl).2⟩
/-- C5: the value dispatcher fails with UnexpectedEnd when no token
exists at the index, maps each leaf token to its leaf value with next
index one past it, delegates OpenCurly to the object builder and
OpenSquare to the array builder at the same index, and fails with
UnexpectedToken carrying the token (no expected descriptor) on Colon,
Comma, CloseCurly or CloseSquare. -/
theorem C5_value_dispatch :
    ∀ (fuel : Nat) (tokens : List Token) (start : Nat),
      (tokens[start]? = none →
        value (fuel + 1) tokens start
          = .error (ParseError.mk .UnexpectedEnd none none)) ∧
      (∀ t, tokens[start]? = some t →
        (t.token_type = .Null →
          value (fuel + 1) tokens start
            = .ok (ParseContext.new Json.Null (start + 1))) ∧
        (∀ b, t.token_type = .Bool b →
          value (fuel + 1) tokens start
            = .ok (ParseContext.new (Json.Bool b) (start + 1))) ∧
        (∀ n, t.token_type = .Number n →
          value (fuel + 1) tokens start
            = .ok (ParseContext.new (Json.Number n) (start + 1))) ∧
        (∀ s, t.token_type = .String s →
          value (fuel + 1) tokens start
            = .ok (ParseContext.new (Json.String s) (start + 1))) ∧
        (t.token_type = .OpenCurly →
          value (fuel + 1) tokens start = object fuel tokens start) ∧
        (t.token_type = .OpenSquare →
          value (fuel + 1) tokens start = array fuel tokens start) ∧
        ((t.token_type = .Colon ∨ t.token_type = .Comma ∨
            t.token_type = .CloseCurly ∨ t.token_type = .CloseSquare) →
          value (fuel + 1) tokens start
            = .error (ParseError.mk .UnexpectedToken (some t) none))) := by
  intro fuel tokens start
  constructor
  · intro h
    rw [value]
    simp [h]
  · intro t h
    refine ⟨?_, ?_, ?_, ?_, ?_, ?_, ?_⟩
    · intro ht
      rw [value]
      simp [h, ht]
    · intro b ht
      rw [value]
      simp [h, ht]
    · intro n ht
      rw [value]
      simp [h, ht]
    · intro s ht
      rw [value]
      simp [h, ht]
    · intro ht
      rw [value]
      simp [h, ht]
    · intro ht
      rw [value]
      simp [h, ht]
    · intro ht
      rw [value]
      rcases ht with ht | ht | ht | ht <;> simp [h, ht]

theorem C5_value_dispatch_witness :
    value 1 ([] : List Token) 0
      = .error (ParseError.mk .UnexpectedEnd none none) ∧
    value 1 [⟨.Null, 0, 0⟩] 0 = .ok (ParseContext.new Json.Null 1) ∧
    value 1 [⟨.Bool true, 0, 0⟩] 0
      = .ok (ParseContext.new (Json.Bool true) 1) ∧
    value 1 [⟨.OpenCurly, 0, 0⟩] 0 = object 0 [⟨.OpenCurly, 0, 0⟩] 0 ∧
    value 1 [⟨.OpenSquare, 0, 0⟩] 0 = array 0 [⟨.OpenSquare, 0, 0⟩] 0 ∧
    value 1 [⟨.Comma, 0, 0⟩] 0
      = .error (ParseError.mk .UnexpectedToken (some ⟨.Comma, 0, 0⟩) none) :=
  ⟨(C5_value_dispatch 0 [] 0).1 rfl,
   ((C5_value_dispatch 0 [⟨.Null, 0, 0⟩] 0).2 ⟨.Null, 0, 0⟩ rfl).1 rfl,
   ((C5_value_dispatch 0 [⟨.Bool true, 0, 0⟩] 0).2 ⟨.Bool true, 0, 0⟩ rfl).2.1
     true rfl,
   ((C5_value_dispatch 0 [⟨.OpenCurly, 0, 0⟩] 0).2
     ⟨.OpenCurly, 0, 0⟩ rfl).2.2.2.2.1 rfl,
   ((C5_value_dispatch 0 [⟨.OpenSquare, 0, 0⟩] 0).2
     ⟨.OpenSquare, 0, 0⟩ rfl).2.2.2.2.2.1 rfl,
   ((C5_value_dispatch 0 [⟨.Comma, 0, 0⟩] 0).2
     ⟨.Comma, 0, 0⟩ rfl).2.2.2.2.2.2 (Or.inr (Or.inl rfl))⟩

/-- C6: tokens after the first fully parsed value are ignored: if parse
succeeds on a stream, it returns the same value on that stream extended
by any further tokens. -/
theorem C6_trailing_tokens_ignored :
    ∀ (tokens extra : List Token) (v : Json),
      parse tokens = .ok v → parse (tokens ++ extra) = .ok v := by
  intro tokens extra v h
  unfold parse at h ⊢
  cases hv : value (4 * tokens.length + 4) tokens 0 with
  | error e => rw [hv] at h; exact Except.noConfusion h
  | ok ctx =>
    rw [hv] at h
    injection h with h2
    have hst := ((parser_stable tokens extra (4 * tokens.length + 4)
      (4 * (tokens ++ extra).length + 4)
      (by simp [List.length_append]) 0).1).1 ctx hv
    simp only [hst]
    rw [h2]

theorem C6_trailing_tokens_ignored_witness :
    parse [Token.mk (.Number 1) 0 0] = .ok (Json.Number 1) ∧
    parse [Token.mk (.Number 1) 0 0, Token.mk (.Number 2) 0 2,
      Token.mk (.Number 3) 0 4] = .ok (Json.Number 1) :=
  ⟨rfl, C6_trailing_tokens_ignored [⟨.Number 1, 0, 0⟩]
    [⟨.Number 2, 0, 2⟩, ⟨.Number 3, 0, 4⟩] (Json.Number 1) rfl⟩
/-- C8: in object parsing, a non-String token in key position makes the
key parser fail with KeyNotInQuotes carrying that token; a String key
not followed by a Colon makes the key/value-pair parser fail with
MissingColon carrying the token found in colon position and the
expected descriptor Colon. -/
theorem C8_key_and_colon_errors :
    ∀ (tokens : List Token) (i : Nat),
      (∀ t, tokens[i]? = some t →
        (∀ s, t.token_type ≠ TokenType.String s) →
        expect_key tokens i
          = .error (ParseError.mk .KeyNotInQuotes (some t) none)) ∧
      (∀ (fuel : Nat) (t t2 : Token) (s : String),
        tokens[i]? = some t → t.token_type = TokenType.String s →
        tokens[i + 1]? = some t2 → t2.token_type ≠ .Colon →
        key_value_pair (fuel + 1) tokens i
          = .error (ParseError.mk .MissingColon (some t2)
              (some TokenType.Colon))) := by
  intro tokens i
  constructor
  · intro t h hns
    obtain ⟨tt, tl, tc⟩ := t
    unfold expect_key
    rw [h]
    cases tt with
    | String s => exact absurd rfl (hns s)
    | Null => rfl
    | Bool b => rfl
    | Number n => rfl
    | Colon => rfl
    | Comma => rfl
    | OpenCurly => rfl
    | CloseCurly => rfl
    | OpenSquare => rfl
    | CloseSquare => rfl
  · intro fuel t t2 s h ht h2 hne
    rw [key_value_pair]
    have hk : expect_key tokens i = .ok s := by
      unfold expect_key
      simp only [h, ht]
    have hcol := @expect_some_ne TokenType.Colon ParseErrorType.MissingColon
      tokens (i + 1) t2 h2 hne
    simp only [hk, hcol]

theorem C8_key_and_colon_errors_witness :
    expect_key [⟨.Number 7, 0, 0⟩] 0
      = .error (ParseError.mk .KeyNotInQuotes (some ⟨.Number 7, 0, 0⟩) none) ∧
    key_value_pair 3 [⟨.String "foo", 0, 0⟩, ⟨.Number 123, 0, 7⟩] 0
      = .error (ParseError.mk .MissingColon (some ⟨.Number 123, 0, 7⟩)
          (some TokenType.Colon)) :=
  ⟨(C8_key_and_colon_errors [⟨.Number 7, 0, 0⟩] 0).1 ⟨.Number 7, 0, 0⟩ rfl
    (fun _ h => TokenType.noConfusion h),
   (C8_key_and_colon_errors [⟨.String "foo", 0, 0⟩, ⟨.Number 123, 0, 7⟩] 0).2
    2 ⟨.String "foo", 0, 0⟩ ⟨.Number 123, 0, 7⟩ "foo" rfl rfl rfl
    (fun h => TokenType.noConfusion h)⟩

/-- C10: cursor progress: every successful return of value, object,
array or key_value_pair reports a next index strictly greater than the
start index and at most the stream length. -/
theorem C10_cursor_progress :
    ∀ (fuel : Nat) (tokens : List Token) (start : Nat),
      (∀ ctx, value fuel tokens start = .ok ctx →
        start < ctx.next ∧ ctx.next ≤ tokens.length) ∧
      (∀ ctx, object fuel tokens start = .ok ctx →
        start < ctx.next ∧ ctx.next ≤ tokens.length) ∧
      (∀ ctx, array fuel tokens start = .ok ctx →
        start < ctx.next ∧ ctx.next ≤ tokens.length) ∧
      (∀ ctx, key_value_pair fuel tokens start = .ok ctx →
        start < ctx.next ∧ ctx.next ≤ tokens.length) :=
  fun fuel tokens start => parser_progress tokens fuel start

theorem C10_cursor_progress_witness :
    value 1 [Token.mk .Null 0 0] 0 = .ok (ParseContext.new Json.Null 1) ∧
    (0 < (ParseContext.new Json.Null 1).next ∧
      (ParseContext.new Json.Null 1).next ≤ [Token.mk .Null 0 0].length) :=
  ⟨rfl, (C10_cursor_progress 1 [Token.mk .Null 0 0] 0).1
    (ParseContext.new Json.Null 1) rfl⟩
